import Mathlib

/- Shallow embedding of the ReAct agent core (src/ReActAgent.py together with
   the tool registry of src/Tools.py) and of the Thought-Action travel-agent
   demo loop (src/JoyFirstAgentTest.py).

   Strings are modelled as `List Char`.  The Python regular expressions are
   embedded by their extensional behaviour at the concrete call sites; the
   reasoning that justifies each translation is recorded in the doc comment
   of the corresponding definition.  Python exceptions are modelled with
   `Except`; a tool handler is a function `List Char → Except PyExc (List Char)`
   so that a handler may either return an observation string or raise. -/

/-- Python `str` whitespace / regex `\s`, restricted to the ASCII range
    (space, tab, newline, carriage return, vertical tab, form feed); the
    theorems below only ever instantiate strings over this range. -/
def isSpace (c : Char) : Bool :=
  c == ' ' || c == '\t' || c == '\n' || c == '\r' || c == '\x0b' || c == '\x0c'

/-- Regex word character `\w`, restricted to the ASCII range
    (letters, digits, underscore). -/
def isWordChar (c : Char) : Bool := c.isAlphanum || c == '_'

/-- Does the pattern occur as a prefix of the text? -/
def beginsWith : List Char → List Char → Bool
  | [], _ => true
  | _ :: _, [] => false
  | p :: ps, c :: cs => p == c && beginsWith ps cs

/-- Split the text at the first occurrence of the pattern: the part strictly
    before the pattern and the part strictly after it. -/
def findSplit (pat : List Char) : List Char → Option (List Char × List Char)
  | [] => if pat.isEmpty then some ([], []) else none
  | c :: cs =>
    if beginsWith pat (c :: cs) then some ([], (c :: cs).drop pat.length)
    else
      match findSplit pat cs with
      | some (a, b) => some (c :: a, b)
      | none => none

/-- Python `str.strip()` (over the ASCII whitespace of `isSpace`). -/
def pyStrip (s : List Char) : List Char :=
  ((s.dropWhile isSpace).reverse.dropWhile isSpace).reverse

/-- The part of the text strictly before the last occurrence of the given
    character, or `none` when the character does not occur at all. -/
def beforeLast (c : Char) (s : List Char) : Option (List Char) :=
  match s.reverse.dropWhile (fun x => !(x == c)) with
  | [] => none
  | _ :: rest => some rest.reverse

/-- `ReActAgent._parse_output`, thought component:
    `re.search(r"Thought:\s*(.*?)(?=\nAction:|$)", text, re.DOTALL)` followed
    by `.group(1).strip()`.  The search anchors at the first occurrence of
    `Thought:`; the greedy `\s*` always commits to the maximal whitespace run
    (the continuation can always succeed, since the lazy group can extend to
    the end of the text where `$` matches); the lazy group then stops at the
    first later position where `\nAction:` begins, or at the end of the text
    (`$` also matches just before a final newline, but the final `.strip()`
    erases that distinction). -/
def parse_output_thought (text : List Char) : Option (List Char) :=
  match findSplit ("Thought:".data) text with
  | none => none
  | some (_, rest) =>
    let s := rest.dropWhile isSpace
    match findSplit ("\nAction:".data) s with
    | some (a, _) => some (pyStrip a)
    | none => some (pyStrip s)

/-- `ReActAgent._parse_output`, action component:
    `re.search(r"Action:\s*(.*?)$", text, re.DOTALL)` followed by
    `.group(1).strip()`.  The search anchors at the first occurrence of
    `Action:`; `\s*` takes the maximal whitespace run and the lazy group
    stops at the first position where `$` matches (end of text, or just
    before one final newline); composing with `.strip()` this is exactly
    `strip` of everything after the first `Action:`. -/
def parse_output_action (text : List Char) : Option (List Char) :=
  match findSplit ("Action:".data) text with
  | none => none
  | some (_, rest) => some (pyStrip rest)

/-- `re.match(r"Finish\[(.*)\]", action, re.DOTALL)` at ReActAgent.py:75 and
    JoyFirstAgentTest.py:128: the text must begin with the literal `Finish[`
    and contain a later `]`; the greedy group captures everything up to the
    last `]` of the text.  `none` models a failed match (on which the Python
    code calls `.group(1)` and raises `AttributeError`). -/
def finishAnswer (action : List Char) : Option (List Char) :=
  if beginsWith ("Finish[".data) action then beforeLast ']' (action.drop 7)
  else none

/-- `ReActAgent._parse_action`:
    `re.match(r"(\w+)\[(.*)\]", action_text, re.DOTALL)`.  The anchored `\w+`
    takes the maximal word-character run at the start (backtracking to a
    shorter run cannot help, since the next character of a shorter run is a
    word character and not `[`), which must be non-empty and immediately
    followed by `[`; the greedy group then captures everything up to the
    last `]` of the text, which must exist. -/
def parse_action (a : List Char) : Option (List Char × List Char) :=
  let name := a.takeWhile isWordChar
  if name.isEmpty then none
  else
    match a.dropWhile isWordChar with
    | '[' :: rest => (beforeLast ']' rest).map (fun arg => (name, arg))
    | _ => none

/-- Python exceptions that the embedded code can raise. -/
inductive PyExc where
  /-- `AttributeError: 'NoneType' object has no attribute ...` from calling
      `.startswith` / `.group` on a failed parse result. -/
  | attributeError
  /-- An arbitrary exception raised inside a tool handler. -/
  | toolError (msg : List Char)
deriving DecidableEq

/-- One entry of `ToolExecutor.tools` (src/Tools.py):
    `{"description": description, "func": func}`. -/
structure ToolEntry where
  description : List Char
  func : List Char → Except PyExc (List Char)

/-- `ToolExecutor.tools`: an insertion-ordered dictionary with unique keys,
    modelled as an association list. -/
abbrev Registry := List (List Char × ToolEntry)

/-- `ToolExecutor.getTool`: `self.tools.get(name, {}).get("func")` - the
    stored entry, or `none` when the name is absent; never raises. -/
def getTool (tools : Registry) (name : List Char) : Option ToolEntry :=
  (tools.find? (fun p => p.1 == name)).map (fun p => p.2)

/-- ReActAgent.py:88: `f"错误: 未找到名为'{tool_name}'的工具"`. -/
def toolMissingMsg (name : List Char) : List Char :=
  "错误: 未找到名为'".data ++ name ++ "'的工具".data

/-- Outcome of one iteration body of `ReActAgent.run` (everything between the
    model call and the bottom of the `while` body), not counting the raised
    exceptions which are carried by `Except`. -/
inductive IterResult where
  /-- `if not response: break` - the model returned no text. -/
  | modelFailed
  /-- The `Finish[...]` branch: `is_success = True; break`. -/
  | finished (answer : List Char)
  /-- `if not tool_name or not tool_input: continue` - loop continues with
      the history unchanged. -/
  | continueSame
  /-- Bottom of the loop body: `history.append` of the Action and the
      Observation.  `invoked` records the handler invocation made during the
      iteration (`none` when the tool name was not in the registry). -/
  | continuePush (action obs : List Char) (invoked : Option (List Char × List Char))
deriving DecidableEq

/-- One iteration body of `ReActAgent.run` on a given model response,
    mirroring ReActAgent.py lines 63-95 in order: the empty-response check,
    `_parse_output` (whose thought component is only printed), the
    `startswith("Finish")` test (an `AttributeError` when the action is
    `None`), the `Finish[...]` regex (an `AttributeError` when it fails),
    `_parse_action` plus the truthiness test on its results, tool lookup and
    handler invocation.  The handler call at line 90 is not wrapped in any
    try/except, so a raising handler propagates. -/
def stepBody (tools : Registry) (response : List Char) : Except PyExc IterResult :=
  if response.isEmpty then .ok .modelFailed
  else
    match parse_output_action response with
    | none => .error .attributeError
    | some action =>
      if beginsWith ("Finish".data) action then
        match finishAnswer action with
        | none => .error .attributeError
        | some ans => .ok (.finished ans)
      else
        match parse_action action with
        | none => .ok .continueSame
        | some (name, arg) =>
          if arg.isEmpty then .ok .continueSame
          else
            match getTool tools name with
            | none => .ok (.continuePush action (toolMissingMsg name) none)
            | some entry =>
              match entry.func arg with
              | .error e => .error e
              | .ok obs => .ok (.continuePush action obs (some (name, arg)))

/-- ReActAgent.py:94-95: append `f"Action:{action}"` and
    `f"Observation:{observation}"` to the history. -/
def pushPair (h : List (List Char)) (action obs : List Char) : List (List Char) :=
  h ++ ["Action:".data ++ action, "Observation:".data ++ obs]

/-- Terminal outcome of `ReActAgent.run`.  The source communicates the
    outcome by printing; the three constructors correspond to its three
    distinguishable exits: the `Finish` branch (prints the final answer),
    the `if not response: break` branch, and falling out of the `while`
    through the step bound. -/
inductive RunResult where
  | finished (answer : List Char)
  | abortedModelFailure
  | abortedMaxSteps
deriving DecidableEq

/-- The `while not is_success and current_step < self.max_steps` loop of
    `ReActAgent.run`, with the scripted model client `replies` indexed by the
    number of model calls already made.  `fuel = max_steps - current_step`;
    `i` is the number of completed model calls (`current_step` before the
    increment at the loop top).  Returns the outcome, the final history and
    the final value of `current_step`. -/
def runFrom (tools : Registry) (replies : Nat → List Char) :
    Nat → Nat → List (List Char) → Except PyExc (RunResult × List (List Char) × Nat)
  | 0, i, h => .ok (.abortedMaxSteps, h, i)
  | fuel + 1, i, h =>
    match stepBody tools (replies i) with
    | .error e => .error e
    | .ok .modelFailed => .ok (.abortedModelFailure, h, i + 1)
    | .ok (.finished a) => .ok (.finished a, h, i + 1)
    | .ok .continueSame => runFrom tools replies fuel (i + 1) h
    | .ok (.continuePush a o _) => runFrom tools replies fuel (i + 1) (pushPair h a o)

/-- `ReActAgent.run`: the history starts empty (`self.history = []`) and
    `current_step` starts at 0. -/
def run (tools : Registry) (maxSteps : Nat) (replies : Nat → List Char) :
    Except PyExc (RunResult × List (List Char) × Nat) :=
  runFrom tools replies maxSteps 0 []

/-- Instrumentation of the same loop: the list of
    (`current_step` after the increment at the loop top, history at the loop
    top) pairs, one per executed iteration, in order. -/
def runTrace (tools : Registry) (replies : Nat → List Char) :
    Nat → Nat → List (List Char) → List (Nat × List (List Char))
  | 0, _, _ => []
  | fuel + 1, i, h =>
    (i + 1, h) ::
      match stepBody tools (replies i) with
      | .ok .continueSame => runTrace tools replies fuel (i + 1) h
      | .ok (.continuePush a o _) => runTrace tools replies fuel (i + 1) (pushPair h a o)
      | _ => []

/- ---------- The Thought-Action travel-agent demo loop ---------- -/

/-- Does the text begin with one of the three section markers of the
    truncation lookahead at JoyFirstAgentTest.py:109? -/
def markerAt (s : List Char) : Bool :=
  beginsWith ("Thought:".data) s || beginsWith ("Action:".data) s ||
    beginsWith ("Observation:".data) s

/-- `\s*(?:Thought:|Action:|Observation:)`: some (possibly empty) whitespace
    run followed by a marker. -/
def wsThenMarker : List Char → Bool
  | [] => false
  | c :: cs => markerAt (c :: cs) || (isSpace c && wsThenMarker cs)

/-- The lookahead `(?=\n\s*(?:Thought:|Action:|Observation:))` of the
    truncation regex: a newline, whitespace, then a marker. -/
def markerAhead : List Char → Bool
  | [] => false
  | c :: rest => c == '\n' && wsThenMarker rest

/-- The lazy `.*?` before the truncation lookahead: consume characters until
    the first position where the lookahead (or `\Z`, i.e. the end of the
    text) matches, returning the consumed part. -/
def scanToLookahead : List Char → List Char
  | [] => []
  | c :: cs => if markerAhead (c :: cs) then [] else c :: scanToLookahead cs

/-- JoyFirstAgentTest.py:109-114:
    `re.search(r'(Thought:.*?Action:.*?)(?=\n\s*(?:Thought:|Action:|Observation:)|\Z)', llm_output, re.DOTALL)`
    and, when the stripped group differs from the stripped output, replacement
    of the output by the group with a truncation log.  The match anchors at
    the first `Thought:`, the first lazy group runs to the first later
    `Action:`, and the second lazy group stops at the first position where
    the lookahead succeeds (`\Z` always succeeds at the end, so the match
    exists whenever the two markers occur in order).  Returns the possibly
    truncated output and whether truncation was logged. -/
def travelTruncate (text : List Char) : List Char × Bool :=
  match findSplit ("Thought:".data) text with
  | none => (text, false)
  | some (_, rest1) =>
    match findSplit ("Action:".data) rest1 with
    | none => (text, false)
    | some (mid, rest2) =>
      let tail := scanToLookahead rest2
      let truncated := pyStrip ("Thought:".data ++ mid ++ "Action:".data ++ tail)
      if truncated = pyStrip text then (text, false) else (truncated, true)

/-- JoyFirstAgentTest.py:120: the corrective observation injected when no
    Action field can be parsed from the reply. -/
def travelNoActionMsg : List Char :=
  "错误：未能解析到Action字段。请确保你的回复严格遵循 'Thought: ... Action: ...' 的格式".data

/-- Classification of one `TravelAgentLoop` iteration on a model reply. -/
inductive TravelOut where
  /-- No `Action: ` field: the corrective `Observation: ...` string is
      appended to the history and the loop continues. -/
  | noAction (appendedObs : List Char)
  /-- `Finish[...]` parsed: the loop breaks with the final answer. -/
  | finishOk (answer : List Char)
  /-- Action starts with `Finish` but the `Finish\[(.*)\]` match fails:
      `.group(1)` raises `AttributeError`. -/
  | finishCrash
  /-- The remaining branch (tool-call dispatch via the
      `name(arg="value")` syntax), with the parsed action text; its
      internals are not needed by any claim and are not modelled further. -/
  | dispatch (actionStr : List Char)
deriving DecidableEq

/-- One `TravelAgentLoop` iteration on a model reply (JoyFirstAgentTest.py
    lines 109-135): truncation, then `re.search(r"Action: (.*)", ...)` (note
    the literal space; the greedy group runs to the end of the text and is
    then stripped), then the `Finish` test.  Returns the classification and
    whether truncation was logged. -/
def travelStepOnReply (llm_output : List Char) : TravelOut × Bool :=
  let t := travelTruncate llm_output
  match findSplit ("Action: ".data) t.1 with
  | none => (.noAction ("Observation: ".data ++ travelNoActionMsg), t.2)
  | some (_, rest) =>
    let actionStr := pyStrip rest
    if beginsWith ("Finish".data) actionStr then
      match finishAnswer actionStr with
      | none => (.finishCrash, t.2)
      | some a => (.finishOk a, t.2)
    else (.dispatch actionStr, t.2)

/-- Even-length, Action/Observation-alternating histories: the shape that
    `ReActAgent.run` maintains (entries are appended only in pairs at
    ReActAgent.py:94-95). -/
def pairedOk : List (List Char) → Bool
  | [] => true
  | [_] => false
  | a :: o :: t =>
    beginsWith ("Action:".data) a && beginsWith ("Observation:".data) o && pairedOk t

/-- No capital `A` in the segment: no occurrence of the `Action:` marker can
    begin inside it. -/
def noA (s : List Char) : Bool := s.all (fun c => !(c == 'A'))

/-- A plain free-text segment: non-empty, containing neither whitespace nor
    the initial letters of the three section markers, so that no marker
    occurrence can begin inside it and stripping around it is trivial. -/
def plainSeg (s : List Char) : Bool :=
  !s.isEmpty &&
    s.all (fun c => !(c == 'A') && !(c == 'T') && !(c == 'O') && !isSpace c)

/-- The tool-dispatch part of a loop iteration cannot raise on this action
    text: the action either fails `_parse_action`, or has an empty argument,
    or names an unregistered tool, or its handler returns normally. -/
def dispatchSafe (tools : Registry) (a : List Char) : Prop :=
  match parse_action a with
  | none => True
  | some (name, arg) =>
    arg = [] ∨
      match getTool tools name with
      | none => True
      | some entry => ∃ o, entry.func arg = .ok o

/- ---------- Helper lemmas about the scanning primitives ---------- -/

theorem beginsWith_append (p s : List Char) : beginsWith p (p ++ s) = true := by
  induction p with
  | nil => rfl
  | cons c cs ih => simp [beginsWith, ih]

theorem findSplit_cons_true {pat : List Char} {c : Char} {cs : List Char}
    (h : beginsWith pat (c :: cs) = true) :
    findSplit pat (c :: cs) = some ([], (c :: cs).drop pat.length) := by
  simp [findSplit, h]

theorem findSplit_cons_false {pat : List Char} {c : Char} {cs : List Char}
    (h : beginsWith pat (c :: cs) = false) :
    findSplit pat (c :: cs) =
      (findSplit pat cs).map (fun ab => (c :: ab.1, ab.2)) := by
  simp only [findSplit, h, Bool.false_eq_true, if_false]
  cases findSplit pat cs with
  | none => rfl
  | some ab => cases ab; rfl

theorem findSplit_self_append (pat ys : List Char) (hp : pat ≠ []) :
    findSplit pat (pat ++ ys) = some ([], ys) := by
  cases hpat : pat ++ ys with
  | nil =>
    rcases List.append_eq_nil.mp hpat with ⟨h1, _⟩
    exact absurd h1 hp
  | cons c cs =>
    have hb : beginsWith pat (pat ++ ys) = true := beginsWith_append pat ys
    rw [hpat] at hb
    rw [← hpat]
    cases pat with
    | nil => exact absurd rfl hp
    | cons p ps =>
      rw [hpat, findSplit_cons_true hb, ← hpat]
      simp [List.drop_left]

theorem beginsWith_drop_ne {p : Char} {ps xs ys : List Char}
    (h : xs.all (fun c => !(c == p)) = true) :
    ∀ k, k < xs.length → beginsWith (p :: ps) (xs.drop k ++ ys) = false := by
  induction xs with
  | nil => intro k hk; simp at hk
  | cons x xs ih =>
    intro k hk
    simp only [List.all_cons, Bool.and_eq_true, Bool.not_eq_true', beq_eq_false_iff_ne] at h
    cases k with
    | zero =>
      simp only [List.drop_zero, List.cons_append, beginsWith]
      have : (p == x) = false := by
        simp only [beq_eq_false_iff_ne]
        exact fun hh => h.1 hh.symm
      simp [this]
    | succ k =>
      simp only [List.drop_succ_cons]
      exact ih (by simpa using h.2) k (by simpa using Nat.lt_of_succ_lt_succ hk)

theorem findSplit_append_right {pat : List Char} (xs ys : List Char)
    (H : ∀ k, k < xs.length → beginsWith pat (xs.drop k ++ ys) = false) :
    findSplit pat (xs ++ ys) =
      (findSplit pat ys).map (fun ab => (xs ++ ab.1, ab.2)) := by
  induction xs with
  | nil =>
    simp only [List.nil_append]
    cases findSplit pat ys with
    | none => rfl
    | some ab => cases ab; rfl
  | cons x xs ih =>
    have h0 : beginsWith pat (x :: (xs ++ ys)) = false := by
      have := H 0 (by simp)
      simpa using this
    simp only [List.cons_append, findSplit_cons_false h0]
    rw [ih (fun k hk => by simpa using H (k + 1) (by simpa using Nat.succ_lt_succ hk))]
    cases findSplit pat ys with
    | none => rfl
    | some ab => cases ab; rfl

/-- First-occurrence splitting at an explicit marker: when no occurrence of
    the pattern begins inside the prefix, the first occurrence is the
    displayed one. -/
theorem findSplit_marker {pat : List Char} (xs ys : List Char) (hp : pat ≠ [])
    (H : ∀ k, k < xs.length → beginsWith pat (xs.drop k ++ (pat ++ ys)) = false) :
    findSplit pat (xs ++ pat ++ ys) = some (xs, ys) := by
  rw [List.append_assoc, findSplit_append_right xs (pat ++ ys) H,
    findSplit_self_append pat ys hp]
  simp

theorem dropWhile_all_false {p : Char → Bool} {s : List Char}
    (h : s.all (fun c => !p c) = true) : s.dropWhile p = s := by
  induction s with
  | nil => rfl
  | cons c cs _ =>
    simp only [List.all_cons, Bool.and_eq_true, Bool.not_eq_true'] at h
    simp [List.dropWhile_cons, h.1]

theorem takeWhile_all_append {p : Char → Bool} {s : List Char} {c : Char} {t : List Char}
    (hs : s.all p = true) (hc : p c = false) :
    (s ++ c :: t).takeWhile p = s := by
  induction s with
  | nil => simp [List.takeWhile_cons, hc]
  | cons a as ih =>
    simp only [List.all_cons, Bool.and_eq_true] at hs
    simp [List.takeWhile_cons, hs.1, ih hs.2]

theorem dropWhile_all_append {p : Char → Bool} {s : List Char} {c : Char} {t : List Char}
    (hs : s.all p = true) (hc : p c = false) :
    (s ++ c :: t).dropWhile p = c :: t := by
  induction s with
  | nil => simp [List.dropWhile_cons, hc]
  | cons a as ih =>
    simp only [List.all_cons, Bool.and_eq_true] at hs
    simp [List.dropWhile_cons, hs.1, ih hs.2]

theorem pyStrip_cons_of_space {c : Char} (hc : isSpace c = true) (s : List Char) :
    pyStrip (c :: s) = pyStrip s := by
  simp [pyStrip, List.dropWhile_cons, hc]

/-- Stripping is the identity on a text that starts and ends with
    non-whitespace characters. -/
theorem pyStrip_sandwich {c d : Char} (mid : List Char)
    (hc : isSpace c = false) (hd : isSpace d = false) :
    pyStrip (c :: (mid ++ [d])) = c :: (mid ++ [d]) := by
  have h1 : (c :: (mid ++ [d])).dropWhile isSpace = c :: (mid ++ [d]) := by
    simp [List.dropWhile_cons, hc]
  have h2 : (c :: (mid ++ [d])).reverse = d :: (mid.reverse ++ [c]) := by
    simp
  have h3 : (d :: (mid.reverse ++ [c])).dropWhile isSpace = d :: (mid.reverse ++ [c]) := by
    simp [List.dropWhile_cons, hd]
  simp only [pyStrip, h1, h2, h3]
  simp

theorem beforeLast_concat (c : Char) (s : List Char) :
    beforeLast c (s ++ [c]) = some s := by
  simp [beforeLast, List.dropWhile_cons]

/- ---------- Character and segment facts ---------- -/

theorem wordChar_not_space {c : Char} (h : isWordChar c = true) : isSpace c = false := by
  by_contra hs
  rw [Bool.not_eq_false] at hs
  simp only [isSpace, Bool.or_eq_true, beq_iff_eq] at hs
  rcases hs with ((((h1 | h1) | h1) | h1) | h1) | h1 <;> subst h1 <;>
    exact absurd h (by decide)

theorem plainSeg_ne {s : List Char} (h : plainSeg s = true) : s ≠ [] := by
  intro hnil; subst hnil; simp [plainSeg] at h

theorem plainSeg_noA {s : List Char} (h : plainSeg s = true) : noA s = true := by
  simp only [plainSeg, Bool.and_eq_true, List.all_eq_true, Bool.not_eq_true',
    beq_eq_false_iff_ne] at h
  simp only [noA, List.all_eq_true, Bool.not_eq_true', beq_eq_false_iff_ne]
  intro c hc
  exact (h.2 c hc).1.1.1

theorem plainSeg_nonspace {s : List Char} (h : plainSeg s = true) :
    s.all (fun c => !isSpace c) = true := by
  simp only [plainSeg, Bool.and_eq_true, List.all_eq_true, Bool.not_eq_true',
    beq_eq_false_iff_ne] at h
  simp only [List.all_eq_true, Bool.not_eq_true']
  intro c hc
  exact (h.2 c hc).2

theorem plainSeg_no_newline {s : List Char} (h : plainSeg s = true) :
    s.all (fun c => !(c == '\n')) = true := by
  have hns := plainSeg_nonspace h
  simp only [List.all_eq_true] at hns ⊢
  intro c hc
  have := hns c hc
  simp only [Bool.not_eq_true'] at this ⊢
  simp only [beq_eq_false_iff_ne]
  intro hh; subst hh; exact absurd this (by decide)

/- ---------- Shape lemmas for schematic model replies ---------- -/

/-- `_parse_output`'s action component on a reply of the canonical shape
    `Thought: T\nAction: body`: when no `Action:` marker can begin inside `T`,
    the extracted action text is `body` stripped. -/
theorem parse_output_action_shape (T body : List Char) (hT : noA T = true) :
    parse_output_action ("Thought: ".data ++ T ++ "\nAction: ".data ++ body) =
      some (pyStrip body) := by
  have hxs : ("Thought: ".data ++ T ++ ['\n']).all (fun c => !(c == 'A')) = true := by
    simp only [List.all_append, Bool.and_eq_true]
    exact ⟨⟨by decide, hT⟩, by decide⟩
  have hre : "Thought: ".data ++ T ++ "\nAction: ".data ++ body =
      ("Thought: ".data ++ T ++ ['\n']) ++ ("Action:".data ++ (' ' :: body)) := by
    have hlit : "\nAction: ".data = ['\n'] ++ ("Action:".data ++ [' ']) := rfl
    rw [hlit]
    simp [List.append_assoc]
  have hsplit : findSplit ("Action:".data)
      (("Thought: ".data ++ T ++ ['\n']) ++ ("Action:".data ++ (' ' :: body))) =
      some ("Thought: ".data ++ T ++ ['\n'], ' ' :: body) := by
    rw [@findSplit_append_right ("Action:".data) _ _
      (fun k hk => by
        have hlit2 : "Action:".data = 'A' :: "ction:".data := rfl
        rw [hlit2]
        exact beginsWith_drop_ne hxs k hk),
      findSplit_self_append _ _ (by decide)]
    simp
  rw [hre]
  unfold parse_output_action
  rw [hsplit]
  show some (pyStrip (' ' :: body)) = some (pyStrip body)
  rw [pyStrip_cons_of_space (by decide) body]

/-- `_parse_action` on an action text of the exact shape `name[arg]`. -/
theorem parse_action_shape (name arg : List Char) (h1 : name ≠ [])
    (h2 : name.all isWordChar = true) :
    parse_action (name ++ ('[' :: (arg ++ [']']))) = some (name, arg) := by
  have hne : name.isEmpty = false := by
    cases name with
    | nil => exact absurd rfl h1
    | cons _ _ => rfl
  unfold parse_action
  rw [takeWhile_all_append h2 (by decide), dropWhile_all_append h2 (by decide)]
  simp [hne, beforeLast_concat]

/-- Stripping is the identity on an action text of the shape `name[arg]`. -/
theorem pyStrip_wordBody (name arg : List Char) (h1 : name ≠ [])
    (h2 : name.all isWordChar = true) :
    pyStrip (name ++ ('[' :: (arg ++ [']']))) = name ++ ('[' :: (arg ++ [']'])) := by
  cases name with
  | nil => exact absurd rfl h1
  | cons n ns =>
    have hn : isWordChar n = true := by
      simp only [List.all_cons, Bool.and_eq_true] at h2
      exact h2.1
    have hshape : (n :: ns) ++ ('[' :: (arg ++ [']'])) =
        n :: ((ns ++ ('[' :: arg)) ++ [']']) := by
      simp [List.append_assoc]
    rw [hshape, pyStrip_sandwich _ (wordChar_not_space hn) (by decide), ← hshape]

/-- Stripping is the identity on an action text of the shape `Finish[A]`. -/
theorem pyStrip_finishBody (A : List Char) :
    pyStrip ("Finish[".data ++ (A ++ [']'])) = "Finish[".data ++ (A ++ [']']) := by
  have hshape : "Finish[".data ++ (A ++ [']']) =
      'F' :: (("inish[".data ++ A) ++ [']']) := by
    have hlit : "Finish[".data = 'F' :: "inish[".data := rfl
    rw [hlit]
    simp [List.append_assoc]
  rw [hshape, pyStrip_sandwich _ (by decide) (by decide), ← hshape]

/-- The `Finish\[(.*)\]` match on an action of the exact shape `Finish[A]`
    yields `A` itself (up to the last `]`, which is the final character). -/
theorem finishAnswer_shape (A : List Char) :
    finishAnswer ("Finish[".data ++ (A ++ [']'])) = some A := by
  unfold finishAnswer
  rw [if_pos (beginsWith_append _ _)]
  rw [List.drop_left' (by decide : ("Finish[".data).length = 7), beforeLast_concat]

theorem beginsWith_finish_of_finishBody (A : List Char) :
    beginsWith ("Finish".data) ("Finish[".data ++ (A ++ [']'])) = true := by
  have hlit : "Finish[".data = "Finish".data ++ ['['] := rfl
  rw [hlit, List.append_assoc]
  exact beginsWith_append _ _

/- ---------- Loop-iteration lemmas ---------- -/

theorem shape_ne_nil (T rest : List Char) :
    "Thought: ".data ++ T ++ "\nAction: ".data ++ rest ≠ [] :=
  fun h => List.cons_ne_nil 'T' _ h

/-- Evaluating one loop iteration once the action text is known. -/
theorem stepBody_eval {tools : Registry} {r a : List Char} (hne : r ≠ [])
    (hp : parse_output_action r = some a) :
    stepBody tools r =
      (if beginsWith ("Finish".data) a then
        match finishAnswer a with
        | none => .error .attributeError
        | some ans => .ok (.finished ans)
      else
        match parse_action a with
        | none => .ok .continueSame
        | some (name, arg) =>
          if arg.isEmpty then .ok .continueSame
          else
            match getTool tools name with
            | none => .ok (.continuePush a (toolMissingMsg name) none)
            | some entry =>
              match entry.func arg with
              | .error e => .error e
              | .ok obs => .ok (.continuePush a obs (some (name, arg)))) := by
  cases r with
  | nil => exact absurd rfl hne
  | cons c cs => simp [stepBody, hp]

theorem stepBody_of_no_action {tools : Registry} {r : List Char} (hne : r ≠ [])
    (hp : parse_output_action r = none) :
    stepBody tools r = .error .attributeError := by
  cases r with
  | nil => exact absurd rfl hne
  | cons c cs => simp [stepBody, hp]

theorem stepBody_of_bad_action {tools : Registry} {r a : List Char}
    (hp : parse_output_action r = some a)
    (hF : beginsWith ("Finish".data) a = false)
    (hpa : parse_action a = none) :
    stepBody tools r = .ok .continueSame := by
  cases r with
  | nil => exact Option.noConfusion (show (none : Option (List Char)) = some a from hp)
  | cons c cs => simp [stepBody, hp, hF, hpa]

theorem runFrom_cont {tools : Registry} {replies : Nat → List Char} {i : Nat}
    {h : List (List Char)} (fuel : Nat)
    (hs : stepBody tools (replies i) = .ok .continueSame) :
    runFrom tools replies (fuel + 1) i h = runFrom tools replies fuel (i + 1) h := by
  simp [runFrom, hs]

theorem runFrom_push {tools : Registry} {replies : Nat → List Char} {i : Nat}
    {h : List (List Char)} {a o : List Char} {inv : Option (List Char × List Char)}
    (fuel : Nat) (hs : stepBody tools (replies i) = .ok (.continuePush a o inv)) :
    runFrom tools replies (fuel + 1) i h =
      runFrom tools replies fuel (i + 1) (pushPair h a o) := by
  simp [runFrom, hs]

theorem runFrom_err {tools : Registry} {replies : Nat → List Char} {i : Nat}
    {h : List (List Char)} {e : PyExc} (fuel : Nat)
    (hs : stepBody tools (replies i) = .error e) :
    runFrom tools replies (fuel + 1) i h = .error e := by
  simp [runFrom, hs]

theorem runFrom_fin {tools : Registry} {replies : Nat → List Char} {i : Nat}
    {h : List (List Char)} {a : List Char} (fuel : Nat)
    (hs : stepBody tools (replies i) = .ok (.finished a)) :
    runFrom tools replies (fuel + 1) i h = .ok (.finished a, h, i + 1) := by
  simp [runFrom, hs]

/- ---------- History pairing ---------- -/

theorem pairedOk_push : ∀ (h : List (List Char)), pairedOk h = true →
    ∀ a o, pairedOk (pushPair h a o) = true
  | [], _, a, o => by
    simp only [pushPair, List.nil_append, pairedOk, Bool.and_eq_true]
    exact ⟨⟨beginsWith_append _ _, beginsWith_append _ _⟩, trivial⟩
  | [x], hx, a, o => by simp [pairedOk] at hx
  | x :: y :: t, hxy, a, o => by
    simp only [pairedOk, Bool.and_eq_true] at hxy
    have ih := pairedOk_push t hxy.2 a o
    simp only [pushPair, List.cons_append, pairedOk, Bool.and_eq_true] at ih ⊢
    exact ⟨hxy.1, ih⟩

theorem pairedOk_even : ∀ (h : List (List Char)), pairedOk h = true →
    h.length % 2 = 0
  | [], _ => rfl
  | [x], hx => by simp [pairedOk] at hx
  | x :: y :: t, hxy => by
    simp only [pairedOk, Bool.and_eq_true] at hxy
    have ih := pairedOk_even t hxy.2
    simp only [List.length_cons]
    omega

/- ---------- Budget and trace lemmas ---------- -/

theorem stepBody_continues (tools : Registry) (r : List Char) (hne : r ≠ [])
    (hex : ∃ a, parse_output_action r = some a ∧
      beginsWith ("Finish".data) a = false ∧ dispatchSafe tools a) :
    stepBody tools r = .ok .continueSame ∨
      ∃ a o inv, stepBody tools r = .ok (.continuePush a o inv) := by
  obtain ⟨a, hpa, hF, hd⟩ := hex
  rw [stepBody_eval hne hpa]
  simp only [hF, Bool.false_eq_true, if_false]
  unfold dispatchSafe at hd
  cases hp2 : parse_action a with
  | none => left; rfl
  | some na =>
    obtain ⟨name, arg⟩ := na
    rw [hp2] at hd
    by_cases harg : arg.isEmpty = true
    · left; simp [harg]
    · rcases hd with hnil | hd2
      · exact absurd (by rw [hnil]; rfl : arg.isEmpty = true) harg
      · cases hg : getTool tools name with
        | none =>
          right
          exact ⟨a, toolMissingMsg name, none, by simp [harg, hg]⟩
        | some entry =>
          rw [hg] at hd2
          obtain ⟨o, ho⟩ := hd2
          right
          exact ⟨a, o, some (name, arg), by simp [harg, hg, ho]⟩

theorem runFrom_budget (tools : Registry) (replies : Nat → List Char)
    (H : ∀ i, replies i ≠ [] ∧ ∃ a, parse_output_action (replies i) = some a ∧
      beginsWith ("Finish".data) a = false ∧ dispatchSafe tools a) :
    ∀ fuel i h, ∃ h', runFrom tools replies fuel i h =
      .ok (.abortedMaxSteps, h', i + fuel) := by
  intro fuel
  induction fuel with
  | zero => intro i h; exact ⟨h, by simp [runFrom]⟩
  | succ n ih =>
    intro i h
    rcases stepBody_continues tools (replies i) (H i).1 (H i).2 with hs | ⟨a, o, inv, hs⟩
    · obtain ⟨h', hh⟩ := ih (i + 1) h
      refine ⟨h', ?_⟩
      have e : i + (n + 1) = (i + 1) + n := by omega
      rw [runFrom_cont n hs, hh, e]
    · obtain ⟨h', hh⟩ := ih (i + 1) (pushPair h a o)
      refine ⟨h', ?_⟩
      have e : i + (n + 1) = (i + 1) + n := by omega
      rw [runFrom_push n hs, hh, e]

theorem runTrace_le (tools : Registry) (replies : Nat → List Char) :
    ∀ fuel i h p, p ∈ runTrace tools replies fuel i h → p.1 ≤ i + fuel := by
  intro fuel
  induction fuel with
  | zero => intro i h p hp; simp [runTrace] at hp
  | succ n ih =>
    intro i h p hp
    cases hs : stepBody tools (replies i) with
    | error e =>
      simp only [runTrace, hs, List.mem_cons, List.not_mem_nil, or_false] at hp
      subst hp; show i + 1 ≤ i + (n + 1); omega
    | ok r =>
      cases r with
      | modelFailed =>
        simp only [runTrace, hs, List.mem_cons, List.not_mem_nil, or_false] at hp
        subst hp; show i + 1 ≤ i + (n + 1); omega
      | finished a =>
        simp only [runTrace, hs, List.mem_cons, List.not_mem_nil, or_false] at hp
        subst hp; show i + 1 ≤ i + (n + 1); omega
      | continueSame =>
        simp only [runTrace, hs, List.mem_cons] at hp
        rcases hp with rfl | hp'
        · show i + 1 ≤ i + (n + 1); omega
        · have := ih (i + 1) h p hp'; omega
      | continuePush a o inv =>
        simp only [runTrace, hs, List.mem_cons] at hp
        rcases hp with rfl | hp'
        · show i + 1 ≤ i + (n + 1); omega
        · have := ih (i + 1) (pushPair h a o) p hp'; omega

theorem runTrace_paired (tools : Registry) (replies : Nat → List Char) :
    ∀ fuel i h, pairedOk h = true →
      ∀ p ∈ runTrace tools replies fuel i h, pairedOk p.2 = true := by
  intro fuel
  induction fuel with
  | zero => intro i h hh p hp; simp [runTrace] at hp
  | succ n ih =>
    intro i h hh p hp
    cases hs : stepBody tools (replies i) with
    | error e =>
      simp only [runTrace, hs, List.mem_cons, List.not_mem_nil, or_false] at hp
      subst hp; exact hh
    | ok r =>
      cases r with
      | modelFailed =>
        simp only [runTrace, hs, List.mem_cons, List.not_mem_nil, or_false] at hp
        subst hp; exact hh
      | finished a =>
        simp only [runTrace, hs, List.mem_cons, List.not_mem_nil, or_false] at hp
        subst hp; exact hh
      | continueSame =>
        simp only [runTrace, hs, List.mem_cons] at hp
        rcases hp with rfl | hp'
        · exact hh
        · exact ih (i + 1) h hh p hp'
      | continuePush a o inv =>
        simp only [runTrace, hs, List.mem_cons] at hp
        rcases hp with rfl | hp'
        · exact hh
        · exact ih (i + 1) (pushPair h a o) (pairedOk_push h hh a o) p hp'

/- ---------- Travel-loop truncation lemmas ---------- -/

theorem plainSeg_concat {s : List Char} (h : plainSeg s = true) :
    ∃ b d, s = b ++ [d] ∧ isSpace d = false := by
  have hne := plainSeg_ne h
  refine ⟨s.dropLast, s.getLast hne, (List.dropLast_append_getLast hne).symm, ?_⟩
  have hns := plainSeg_nonspace h
  simp only [List.all_eq_true, Bool.not_eq_true'] at hns
  exact hns _ (List.getLast_mem hne)

theorem plainSeg_head_cons {s : List Char} (h : plainSeg s = true) :
    ∃ c cs, s = c :: cs ∧ isSpace c = false := by
  cases s with
  | nil => exact absurd rfl (plainSeg_ne h)
  | cons c cs =>
    refine ⟨c, cs, rfl, ?_⟩
    have hns := plainSeg_nonspace h
    simp only [List.all_cons, Bool.and_eq_true, Bool.not_eq_true'] at hns
    exact hns.1

theorem scan_append_no_newline {s : List Char}
    (h : s.all (fun c => !(c == '\n')) = true) (t : List Char) :
    scanToLookahead (s ++ t) = s ++ scanToLookahead t := by
  induction s with
  | nil => rfl
  | cons c cs ih =>
    rw [List.all_cons, Bool.and_eq_true] at h
    have hc : (c == '\n') = false := by
      have := h.1
      simpa using this
    have hm : markerAhead (c :: (cs ++ t)) = false := by
      simp [markerAhead, hc]
    simp only [List.cons_append, scanToLookahead, List.append_eq, hm, Bool.false_eq_true,
      if_false, List.cons.injEq, true_and]
    exact ih h.2

theorem scan_stop {s : List Char} (hm : markerAhead s = true) :
    scanToLookahead s = [] := by
  cases s with
  | nil => rfl
  | cons c cs => simp [scanToLookahead, hm]

theorem wsThenMarker_of_markerAt {s : List Char} (h : markerAt s = true) :
    wsThenMarker s = true := by
  cases s with
  | nil => exact absurd h (by decide)
  | cons c cs => simp [wsThenMarker, h]

theorem beginsWith_thought_sp (X : List Char) :
    beginsWith ("Thought:".data) ("Thought: ".data ++ X) = true := by
  have hlit : "Thought: ".data = "Thought:".data ++ [' '] := rfl
  rw [hlit, List.append_assoc]
  exact beginsWith_append _ _

theorem markerAhead_newline_thought (X : List Char) :
    markerAhead ('\n' :: ("Thought: ".data ++ X)) = true := by
  have hmk : markerAt ("Thought: ".data ++ X) = true := by
    simp only [markerAt, Bool.or_eq_true]
    left; left
    exact beginsWith_thought_sp X
  have hws := wsThenMarker_of_markerAt hmk
  show (('\n' == '\n') && wsThenMarker ("Thought: ".data ++ X)) = true
  rw [hws]
  rfl

/-- Stripping is the identity on `Thought: `-headed text whose last character
    is not whitespace. -/
theorem pyStrip_T_chain {X b : List Char} {d : Char}
    (hX : X = b ++ [d]) (hd : isSpace d = false) :
    pyStrip ("Thought: ".data ++ X) = "Thought: ".data ++ X := by
  have hlitT : "Thought: ".data = 'T' :: "hought: ".data := rfl
  have hsh : "Thought: ".data ++ X = 'T' :: (("hought: ".data ++ b) ++ [d]) := by
    rw [hX, hlitT]
    simp [List.append_assoc]
  rw [hsh, pyStrip_sandwich _ (by decide) hd, ← hsh]

/-- Stripping is the identity on any text that starts and ends with
    non-whitespace characters, given by an explicit decomposition. -/
theorem pyStrip_of_ends {X b : List Char} {c d : Char} (hsh : X = c :: (b ++ [d]))
    (hc : isSpace c = false) (hd : isSpace d = false) : pyStrip X = X := by
  rw [hsh, pyStrip_sandwich _ hc hd]

/-- The travel-loop reply filter on a reply consisting of two concatenated
    Thought/Action pairs keeps exactly the first pair and logs truncation. -/
theorem travelTruncate_two_pairs (t1 a1 t2 a2 : List Char)
    (h1 : plainSeg t1 = true) (h2 : plainSeg a1 = true) (h4 : plainSeg a2 = true) :
    travelTruncate ("Thought: ".data ++ t1 ++ "\nAction: ".data ++ a1 ++
        "\nThought: ".data ++ t2 ++ "\nAction: ".data ++ a2) =
      ("Thought: ".data ++ t1 ++ "\nAction: ".data ++ a1, true) := by
  have hlitT : "Thought: ".data = "Thought:".data ++ [' '] := rfl
  have hlitA : "\nAction: ".data = ['\n'] ++ ("Action:".data ++ [' ']) := rfl
  have hlitTh : "\nThought: ".data = ['\n'] ++ "Thought: ".data := rfl
  have e1 : "Thought: ".data ++ t1 ++ "\nAction: ".data ++ a1 ++
      "\nThought: ".data ++ t2 ++ "\nAction: ".data ++ a2 =
      "Thought:".data ++ (' ' :: (t1 ++ "\nAction: ".data ++ a1 ++
        "\nThought: ".data ++ t2 ++ "\nAction: ".data ++ a2)) := by
    conv_lhs => rw [hlitT]
    simp [List.append_assoc]
  have s1 : findSplit ("Thought:".data)
      ("Thought: ".data ++ t1 ++ "\nAction: ".data ++ a1 ++
        "\nThought: ".data ++ t2 ++ "\nAction: ".data ++ a2) =
      some ([], ' ' :: (t1 ++ "\nAction: ".data ++ a1 ++
        "\nThought: ".data ++ t2 ++ "\nAction: ".data ++ a2)) := by
    rw [e1]
    exact findSplit_self_append _ _ (by decide)
  have hxsall : ((' ' :: (t1 ++ ['\n'])).all (fun c => !(c == 'A'))) = true := by
    simp only [List.all_cons, List.all_append, Bool.and_eq_true]
    refine ⟨by decide, plainSeg_noA h1, by decide⟩
  have e2 : ' ' :: (t1 ++ "\nAction: ".data ++ a1 ++ "\nThought: ".data ++ t2 ++
        "\nAction: ".data ++ a2) =
      (' ' :: (t1 ++ ['\n'])) ++ ("Action:".data ++ (' ' :: (a1 ++
        "\nThought: ".data ++ t2 ++ "\nAction: ".data ++ a2))) := by
    rw [hlitA]
    simp [List.append_assoc]
  have hH : ∀ k, k < (' ' :: (t1 ++ ['\n'])).length →
      beginsWith ("Action:".data) ((' ' :: (t1 ++ ['\n'])).drop k ++
        ("Action:".data ++ (' ' :: (a1 ++ "\nThought: ".data ++ t2 ++
          "\nAction: ".data ++ a2)))) = false := by
    intro k hk
    rw [show ("Action:".data) = 'A' :: "ction:".data from rfl]
    exact beginsWith_drop_ne hxsall k hk
  have s2 : findSplit ("Action:".data)
      (' ' :: (t1 ++ "\nAction: ".data ++ a1 ++ "\nThought: ".data ++ t2 ++
        "\nAction: ".data ++ a2)) =
      some (' ' :: (t1 ++ ['\n']),
        ' ' :: (a1 ++ "\nThought: ".data ++ t2 ++ "\nAction: ".data ++ a2)) := by
    rw [e2, findSplit_append_right _ _ hH, findSplit_self_append _ _ (by decide)]
    simp
  have hm0 : markerAhead (' ' :: (a1 ++ "\nThought: ".data ++ t2 ++
      "\nAction: ".data ++ a2)) = false := by
    show ((' ' == '\n') && wsThenMarker (a1 ++ "\nThought: ".data ++ t2 ++
      "\nAction: ".data ++ a2)) = false
    rw [show ((' ' == '\n') : Bool) = false from by decide, Bool.false_and]
  have s3 : scanToLookahead (' ' :: (a1 ++ "\nThought: ".data ++ t2 ++
      "\nAction: ".data ++ a2)) = ' ' :: a1 := by
    simp only [scanToLookahead, hm0, Bool.false_eq_true, if_false, List.cons.injEq, true_and]
    have e3 : a1 ++ "\nThought: ".data ++ t2 ++ "\nAction: ".data ++ a2 =
        a1 ++ ('\n' :: ("Thought: ".data ++ (t2 ++ "\nAction: ".data ++ a2))) := by
      rw [hlitTh]
      simp [List.append_assoc]
    rw [e3, scan_append_no_newline (plainSeg_no_newline h2),
      scan_stop (markerAhead_newline_thought _), List.append_nil]
  obtain ⟨b1, d1, hb1, hd1⟩ := plainSeg_concat h2
  obtain ⟨b2, d2, hb2, hd2⟩ := plainSeg_concat h4
  have e4 : "Thought:".data ++ (' ' :: (t1 ++ ['\n'])) ++ "Action:".data ++ (' ' :: a1) =
      "Thought: ".data ++ (t1 ++ ("\nAction: ".data ++ a1)) := by
    rw [hlitT, hlitA]
    simp [List.append_assoc]
  have e5 : "Thought: ".data ++ t1 ++ "\nAction: ".data ++ a1 ++ "\nThought: ".data ++
      t2 ++ "\nAction: ".data ++ a2 =
      "Thought: ".data ++ (t1 ++ ("\nAction: ".data ++ (a1 ++ ("\nThought: ".data ++
        (t2 ++ ("\nAction: ".data ++ a2)))))) := by
    simp [List.append_assoc]
  have hstrip1 : pyStrip ("Thought: ".data ++ (t1 ++ ("\nAction: ".data ++ a1))) =
      "Thought: ".data ++ (t1 ++ ("\nAction: ".data ++ a1)) := by
    refine pyStrip_T_chain (b := t1 ++ ("\nAction: ".data ++ b1)) (d := d1) ?_ hd1
    rw [hb1]
    simp [List.append_assoc]
  have hstrip2 : pyStrip ("Thought: ".data ++ (t1 ++ ("\nAction: ".data ++ (a1 ++
        ("\nThought: ".data ++ (t2 ++ ("\nAction: ".data ++ a2))))))) =
      "Thought: ".data ++ (t1 ++ ("\nAction: ".data ++ (a1 ++ ("\nThought: ".data ++
        (t2 ++ ("\nAction: ".data ++ a2)))))) := by
    refine pyStrip_T_chain
      (b := t1 ++ ("\nAction: ".data ++ (a1 ++ ("\nThought: ".data ++
        (t2 ++ ("\nAction: ".data ++ b2)))))) (d := d2) ?_ hd2
    rw [hb2]
    simp [List.append_assoc]
  have hneq : ("Thought: ".data ++ (t1 ++ ("\nAction: ".data ++ a1))) ≠
      ("Thought: ".data ++ (t1 ++ ("\nAction: ".data ++ (a1 ++ ("\nThought: ".data ++
        (t2 ++ ("\nAction: ".data ++ a2))))))) := by
    intro hEq
    have hl := congrArg List.length hEq
    simp only [List.length_append, List.length_cons, List.length_nil] at hl
    omega
  simp only [travelTruncate, s1, s2, s3]
  rw [e4, e5, hstrip1, hstrip2, if_neg hneq]
  simp [List.append_assoc]

/- ==================== Claim theorems ==================== -/

/-- Claim C1, counterexample: for the reply `I do not know`, which contains
    no Action section, `ReActAgent.run` does not recover by appending a
    corrective Observation: `action` is `None` and `action.startswith` at
    ReActAgent.py:73 raises an uncaught `AttributeError` which propagates out
    of `run`. -/
theorem c1_counterexample :
    run [] 3 (fun _ => "I do not know".data) = .error .attributeError := by rfl

/-- Claim C1, amended: `ReActAgent.run` never appends a corrective
    Observation on a parse failure.  (i) On a non-empty reply with no
    `Action:` section, the loop raises an uncaught `AttributeError` that
    propagates out of `run`.  (ii) On a reply whose Action text matches
    neither a `Finish` prefix nor `name[argument]`, the loop silently
    continues to the next iteration with the history unchanged and no
    exception.  (iii) Only the separate `TravelAgentLoop` demo recovers from
    a missing Action field by appending the corrective Observation and
    continuing. -/
theorem c1_amended (tools : Registry) (replies : Nat → List Char) (fuel i j : Nat)
    (h : List (List Char)) (r' a : List Char)
    (hne : replies i ≠ []) (hnoact : parse_output_action (replies i) = none)
    (hpa : parse_output_action (replies j) = some a)
    (hF : beginsWith ("Finish".data) a = false) (hbad : parse_action a = none)
    (hth : findSplit ("Thought:".data) r' = none)
    (hac : findSplit ("Action: ".data) r' = none) :
    runFrom tools replies (fuel + 1) i h = .error .attributeError ∧
    runFrom tools replies (fuel + 1) j h = runFrom tools replies fuel (j + 1) h ∧
    travelStepOnReply r' =
      (.noAction ("Observation: ".data ++ travelNoActionMsg), false) := by
  refine ⟨?_, ?_, ?_⟩
  · exact runFrom_err fuel (stepBody_of_no_action hne hnoact)
  · exact runFrom_cont fuel (stepBody_of_bad_action hpa hF hbad)
  · simp [travelStepOnReply, travelTruncate, hth, hac]

/-- Claim C1, witness for the amended statement at concrete inputs. -/
theorem c1_amended_witness :
    runFrom [] (fun n => if n = 0 then "no actions here".data
        else "Thought: t\nAction: do nothing".data) (2 + 1) 0 [] =
      .error .attributeError ∧
    runFrom [] (fun n => if n = 0 then "no actions here".data
        else "Thought: t\nAction: do nothing".data) (2 + 1) 1 [] =
      runFrom [] (fun n => if n = 0 then "no actions here".data
        else "Thought: t\nAction: do nothing".data) 2 (1 + 1) [] ∧
    travelStepOnReply "hello".data =
      (.noAction ("Observation: ".data ++ travelNoActionMsg), false) :=
  c1_amended [] (fun n => if n = 0 then "no actions here".data
      else "Thought: t\nAction: do nothing".data) 2 0 1 [] "hello".data
    "do nothing".data (by decide) (by rfl) (by rfl) (by rfl) (by rfl)
    (by rfl) (by rfl)

/-- Claim C2, counterexample: on a reply containing two concatenated
    Thought/Action pairs, `ReActAgent._parse_output` does not keep only the
    first pair: the extracted Action text runs to the end of the reply, so it
    still contains the entire second pair rather than just `Search[x]`. -/
theorem c2_counterexample :
    parse_output_action
      "Thought: a\nAction: Search[x]\nThought: b\nAction: Finish[y]".data =
      some ("Search[x]\nThought: b\nAction: Finish[y]".data) ∧
    some ("Search[x]\nThought: b\nAction: Finish[y]".data) ≠
      some ("Search[x]".data) :=
  ⟨by rfl, by decide⟩

/-- Claim C2, amended: the multi-pair truncation exists only in the
    `TravelAgentLoop` demo (JoyFirstAgentTest.py:109-114): on a reply of two
    concatenated Thought/Action pairs it keeps exactly the first pair -
    the shortest prefix with one Thought and one Action section, stopping
    before the next `Thought:`/`Action:`/`Observation:` marker - discards
    the remainder and logs that truncation occurred; `ReActAgent._parse_output`
    performs no truncation: its Action text extends to the end of the reply
    and includes the whole second pair. -/
theorem c2_amended (t1 a1 t2 a2 : List Char)
    (h1 : plainSeg t1 = true) (h2 : plainSeg a1 = true) (h4 : plainSeg a2 = true) :
    travelTruncate ("Thought: ".data ++ t1 ++ "\nAction: ".data ++ a1 ++
        "\nThought: ".data ++ t2 ++ "\nAction: ".data ++ a2) =
      ("Thought: ".data ++ t1 ++ "\nAction: ".data ++ a1, true) ∧
    parse_output_action ("Thought: ".data ++ t1 ++ "\nAction: ".data ++ a1 ++
        "\nThought: ".data ++ t2 ++ "\nAction: ".data ++ a2) =
      some (a1 ++ "\nThought: ".data ++ t2 ++ "\nAction: ".data ++ a2) := by
  constructor
  · exact travelTruncate_two_pairs t1 a1 t2 a2 h1 h2 h4
  · have e : "Thought: ".data ++ t1 ++ "\nAction: ".data ++ a1 ++
        "\nThought: ".data ++ t2 ++ "\nAction: ".data ++ a2 =
        "Thought: ".data ++ t1 ++ "\nAction: ".data ++
          (a1 ++ "\nThought: ".data ++ t2 ++ "\nAction: ".data ++ a2) := by
      simp [List.append_assoc]
    rw [e, parse_output_action_shape t1 _ (plainSeg_noA h1)]
    obtain ⟨c, cs, hc, hcs⟩ := plainSeg_head_cons h2
    obtain ⟨b2, d2, hb2, hd2⟩ := plainSeg_concat h4
    have hsh : a1 ++ "\nThought: ".data ++ t2 ++ "\nAction: ".data ++ a2 =
        c :: ((cs ++ ("\nThought: ".data ++ (t2 ++ ("\nAction: ".data ++ b2)))) ++
          [d2]) := by
      rw [hc, hb2]
      simp [List.append_assoc]
    rw [pyStrip_of_ends hsh hcs hd2]

/-- Claim C2, witness for the amended statement at concrete segments. -/
theorem c2_amended_witness :
    travelTruncate ("Thought: ".data ++ "a".data ++ "\nAction: ".data ++
        "Search[x]".data ++ "\nThought: ".data ++ "b".data ++ "\nAction: ".data ++
        "Finish[y]".data) =
      ("Thought: ".data ++ "a".data ++ "\nAction: ".data ++ "Search[x]".data,
        true) ∧
    parse_output_action ("Thought: ".data ++ "a".data ++ "\nAction: ".data ++
        "Search[x]".data ++ "\nThought: ".data ++ "b".data ++ "\nAction: ".data ++
        "Finish[y]".data) =
      some ("Search[x]".data ++ "\nThought: ".data ++ "b".data ++
        "\nAction: ".data ++ "Finish[y]".data) :=
  c2_amended "a".data "Search[x]".data "b".data "Finish[y]".data
    (by decide) (by decide) (by decide)

/-- Claim C3, counterexample: a model client that always returns the
    parseable, `Finish`-free reply `Thought: t\nAction: Crash[q]` (first two
    conjuncts), together with a registered `Crash` tool whose handler raises:
    with `max_steps = 2` the run propagates the handler's exception after the
    first model call instead of performing exactly 2 calls and terminating
    through the max-steps abort, so the claim fails without a no-raise
    condition on the reached handlers. -/
theorem c3_counterexample :
    parse_output_action "Thought: t\nAction: Crash[q]".data =
      some ("Crash[q]".data) ∧
    beginsWith ("Finish".data) ("Crash[q]".data) = false ∧
    run [("Crash".data,
        ⟨"raises".data, fun _ => .error (.toolError "tool crash".data)⟩)] 2
      (fun _ => "Thought: t\nAction: Crash[q]".data) =
      .error (.toolError "tool crash".data) :=
  ⟨by rfl, by rfl, by rfl⟩

/-- Claim C3, amended: with `max_steps = N` and a scripted model client whose
    replies are always non-empty, always parse to an action, never carry a
    `Finish` directive, and whose tool dispatch cannot raise (every reached
    handler returns normally; actions that fail tool-parsing, have an empty
    argument, or name an unregistered tool are always safe), `run` performs
    exactly `N` model calls (the returned step counter equals `N`) and exits
    through the step bound (the max-steps abort).  Moreover, in every run
    whatsoever - with no hypotheses at all - the step counter observed at
    the top of each loop iteration never exceeds `max_steps`. -/
theorem c3_step_budget (tools : Registry) (replies : Nat → List Char) (N : Nat) :
    ((∀ i, replies i ≠ [] ∧ ∃ a, parse_output_action (replies i) = some a ∧
        beginsWith ("Finish".data) a = false ∧ dispatchSafe tools a) →
      ∃ h', run tools N replies = .ok (.abortedMaxSteps, h', N)) ∧
    (∀ p ∈ runTrace tools replies N 0 [], p.1 ≤ N) := by
  constructor
  · intro H
    obtain ⟨h', hh⟩ := runFrom_budget tools replies H N 0 []
    refine ⟨h', ?_⟩
    unfold run
    rw [hh]
    norm_num
  · intro p hp
    have := runTrace_le tools replies N 0 [] p hp
    simpa using this

/-- Claim C3, witness: a scripted non-Finish reply stream with
    `max_steps = 2`, plus the step bound at the concrete second loop top. -/
theorem c3_witness :
    (∃ h', run [] 2 (fun _ => "Thought: a\nAction: Search[x]".data) =
      .ok (.abortedMaxSteps, h', 2)) ∧
    ((2, ["Action:Search[x]".data,
        "Observation:".data ++ toolMissingMsg "Search".data]) :
      Nat × List (List Char)).1 ≤ 2 :=
  ⟨(c3_step_budget [] (fun _ => "Thought: a\nAction: Search[x]".data) 2).1
      (fun _ => ⟨show "Thought: a\nAction: Search[x]".data ≠ [] by decide,
        "Search[x]".data, by rfl, by rfl, Or.inr trivial⟩),
    (c3_step_budget [] (fun _ => "Thought: a\nAction: Search[x]".data) 2).2
      (2, ["Action:Search[x]".data,
        "Observation:".data ++ toolMissingMsg "Search".data]) (by decide)⟩

/-- Claim C4, counterexample: for the first reply
    `Thought: x\nAction: Finish[ Paris ]`, `run` finishes in one step but the
    answer is the bracket content ` Paris ` verbatim - it is not trimmed at
    its outer edges, contradicting the claim's `A trimmed only at its outer
    edges`. -/
theorem c4_counterexample :
    run [] 3 (fun _ => "Thought: x\nAction: Finish[ Paris ]".data) =
      .ok (.finished " Paris ".data, [], 1) ∧
    " Paris ".data ≠ pyStrip (" Paris ".data) :=
  ⟨by rfl, by decide⟩

/-- Claim C4, amended: for every first model reply of the well-formed shape
    `Thought: T\nAction: Finish[A]` (with no `Action:` marker inside `T`),
    `run` terminates after exactly one step with the Finished outcome and
    answer exactly `A`, verbatim: the whole action text is stripped at its
    outer edges, but the bracket content `A` itself is not trimmed.  A
    Finished outcome carries an answer; an Aborted outcome carries none. -/
theorem c4_amended (tools : Registry) (replies : Nat → List Char) (N : Nat)
    (T A : List Char) (hT : noA T = true)
    (h0 : replies 0 = "Thought: ".data ++ T ++ "\nAction: ".data ++
      ("Finish[".data ++ (A ++ [']']))) :
    run tools (N + 1) replies = .ok (.finished A, [], 1) := by
  have hp := parse_output_action_shape T ("Finish[".data ++ (A ++ [']'])) hT
  rw [pyStrip_finishBody] at hp
  have hs : stepBody tools (replies 0) = .ok (.finished A) := by
    rw [h0, stepBody_eval (shape_ne_nil _ _) hp, finishAnswer_shape A]
    rfl
  unfold run
  rw [runFrom_fin N hs]

/-- Claim C4, witness for the amended statement, with an answer that
    contains an inner bracket pair. -/
theorem c4_amended_witness :
    run [] 4 (fun _ => "Thought: w\nAction: Finish[a [b] c]".data) =
      .ok (.finished "a [b] c".data, [], 1) :=
  c4_amended [] (fun _ => "Thought: w\nAction: Finish[a [b] c]".data) 3
    "w".data "a [b] c".data (by decide) (by decide)

/-- Claim C5: for an Action text of the exact shape `name[argument]` with a
    non-empty word-character name and a non-empty argument, `_parse_action`
    yields the tool call whose argument is exactly the substring between the
    first `[` and the last `]` (nested brackets preserved); and when the name
    is registered and the handler returns, the iteration invokes that handler
    exactly once with exactly that substring and appends exactly one
    Action/Observation pair, the Observation being the handler's return
    value. -/
theorem c5_tool_dispatch (tools : Registry) (replies : Nat → List Char)
    (fuel i : Nat) (h : List (List Char)) (T name arg o : List Char)
    (entry : ToolEntry) (hT : noA T = true) (h1 : name ≠ [])
    (h2 : name.all isWordChar = true) (h3 : arg ≠ [])
    (hF : beginsWith ("Finish".data) (name ++ ('[' :: (arg ++ [']']))) = false)
    (hreg : getTool tools name = some entry) (hok : entry.func arg = .ok o)
    (hrep : replies i = "Thought: ".data ++ T ++ "\nAction: ".data ++
      (name ++ ('[' :: (arg ++ [']'])))) :
    parse_action (name ++ ('[' :: (arg ++ [']']))) = some (name, arg) ∧
    stepBody tools (replies i) =
      .ok (.continuePush (name ++ ('[' :: (arg ++ [']']))) o (some (name, arg))) ∧
    runFrom tools replies (fuel + 1) i h =
      runFrom tools replies fuel (i + 1)
        (h ++ ["Action:".data ++ (name ++ ('[' :: (arg ++ [']']))),
          "Observation:".data ++ o]) := by
  have hpa := parse_action_shape name arg h1 h2
  have hp := parse_output_action_shape T (name ++ ('[' :: (arg ++ [']']))) hT
  rw [pyStrip_wordBody name arg h1 h2] at hp
  have hargE : arg.isEmpty = false := by
    cases arg with
    | nil => exact absurd rfl h3
    | cons _ _ => rfl
  have hs : stepBody tools (replies i) =
      .ok (.continuePush (name ++ ('[' :: (arg ++ [']']))) o (some (name, arg))) := by
    rw [hrep, stepBody_eval (shape_ne_nil _ _) hp]
    simp only [hF, Bool.false_eq_true, if_false, hpa, hargE, hreg, hok]
  exact ⟨hpa, hs, runFrom_push fuel hs⟩

/-- Claim C5, witness: a registered `Echo` tool invoked on an argument that
    itself contains a nested bracket pair. -/
theorem c5_witness :
    parse_action ("Echo".data ++ ('[' :: ("hi[1]".data ++ [']']))) =
      some ("Echo".data, "hi[1]".data) ∧
    stepBody [("Echo".data, ⟨"echoes".data, fun s => .ok ("E:".data ++ s)⟩)]
      ((fun _ => "Thought: t\nAction: Echo[hi[1]]".data) 0) =
      .ok (.continuePush ("Echo".data ++ ('[' :: ("hi[1]".data ++ [']'])))
        ("E:hi[1]".data) (some ("Echo".data, "hi[1]".data))) ∧
    runFrom [("Echo".data, ⟨"echoes".data, fun s => .ok ("E:".data ++ s)⟩)]
      (fun _ => "Thought: t\nAction: Echo[hi[1]]".data) (2 + 1) 0 [] =
      runFrom [("Echo".data, ⟨"echoes".data, fun s => .ok ("E:".data ++ s)⟩)]
      (fun _ => "Thought: t\nAction: Echo[hi[1]]".data) 2 (0 + 1)
        ([] ++ ["Action:".data ++ ("Echo".data ++ ('[' :: ("hi[1]".data ++ [']']))),
          "Observation:".data ++ "E:hi[1]".data]) :=
  c5_tool_dispatch [("Echo".data, ⟨"echoes".data, fun s => .ok ("E:".data ++ s)⟩)]
    (fun _ => "Thought: t\nAction: Echo[hi[1]]".data) 2 0 [] "t".data
    "Echo".data "hi[1]".data "E:hi[1]".data
    ⟨"echoes".data, fun s => .ok ("E:".data ++ s)⟩
    (by decide) (by decide) (by decide) (by decide) (by decide) (by rfl) (by rfl)
    (by decide)

/-- Claim C6, counterexample: `Echo[]` parses as a valid tool call with an
    empty-string argument (not Unparseable), but the loop does not invoke the
    registered handler: the truthiness check
    `if not tool_name or not tool_input` at ReActAgent.py:81 treats the empty
    argument as a failed parse, so the iteration continues with no handler
    invocation and no history append. -/
theorem c6_counterexample :
    parse_action ("Echo[]".data) = some ("Echo".data, []) ∧
    stepBody [("Echo".data, ⟨"echoes".data, fun s => .ok ("E:".data ++ s)⟩)]
      "Thought: t\nAction: Echo[]".data = .ok .continueSame :=
  ⟨by rfl, by rfl⟩

/-- Claim C6, amended: for an Action text `Name[]` with an empty argument,
    `_parse_action` does yield a valid tool call with the empty-string
    argument - not Unparseable - but the loop's truthiness check treats the
    empty argument as a parse failure: even for a registered tool the handler
    is never invoked and the iteration continues with the history
    unchanged. -/
theorem c6_amended (tools : Registry) (replies : Nat → List Char) (fuel i : Nat)
    (h : List (List Char)) (T name : List Char) (hT : noA T = true)
    (h1 : name ≠ []) (h2 : name.all isWordChar = true)
    (hF : beginsWith ("Finish".data) (name ++ ('[' :: [']'])) = false)
    (hrep : replies i = "Thought: ".data ++ T ++ "\nAction: ".data ++
      (name ++ ('[' :: [']']))) :
    parse_action (name ++ ('[' :: [']'])) = some (name, []) ∧
    stepBody tools (replies i) = .ok .continueSame ∧
    runFrom tools replies (fuel + 1) i h = runFrom tools replies fuel (i + 1) h := by
  have hpa : parse_action (name ++ ('[' :: [']'])) = some (name, []) :=
    parse_action_shape name [] h1 h2
  have hp : parse_output_action ("Thought: ".data ++ T ++ "\nAction: ".data ++
      (name ++ ('[' :: [']']))) = some (pyStrip (name ++ ('[' :: [']']))) :=
    parse_output_action_shape T (name ++ ('[' :: [']'])) hT
  have hstrip : pyStrip (name ++ ('[' :: [']'])) = name ++ ('[' :: [']']) :=
    pyStrip_wordBody name [] h1 h2
  rw [hstrip] at hp
  have hs : stepBody tools (replies i) = .ok .continueSame := by
    rw [hrep, stepBody_eval (shape_ne_nil _ _) hp]
    simp only [hF, Bool.false_eq_true, if_false, hpa]
    rfl
  exact ⟨hpa, hs, runFrom_cont fuel hs⟩

/-- Claim C6, witness for the amended statement. -/
theorem c6_amended_witness :
    parse_action ("Echo".data ++ ('[' :: [']'])) = some ("Echo".data, []) ∧
    stepBody [("Echo".data, ⟨"echoes".data, fun s => .ok ("E:".data ++ s)⟩)]
      ((fun _ => "Thought: t\nAction: Echo[]".data) 0) = .ok .continueSame ∧
    runFrom [("Echo".data, ⟨"echoes".data, fun s => .ok ("E:".data ++ s)⟩)]
      (fun _ => "Thought: t\nAction: Echo[]".data) (1 + 1) 0 [] =
      runFrom [("Echo".data, ⟨"echoes".data, fun s => .ok ("E:".data ++ s)⟩)]
      (fun _ => "Thought: t\nAction: Echo[]".data) 1 (0 + 1) [] :=
  c6_amended [("Echo".data, ⟨"echoes".data, fun s => .ok ("E:".data ++ s)⟩)]
    (fun _ => "Thought: t\nAction: Echo[]".data) 1 0 [] "t".data "Echo".data
    (by decide) (by decide) (by decide) (by decide) (by decide)

/-- Claim C7, counterexample: a registered tool whose handler raises is not
    caught by the loop: ReActAgent.py:90 invokes the handler with no
    try/except, so the handler's exception propagates out of `run` as a
    process-level failure instead of being converted to an Observation. -/
theorem c7_counterexample :
    run [("Boom".data, ⟨"raises".data, fun _ => .error (.toolError "boom".data)⟩)]
      3 (fun _ => "Thought: t\nAction: Boom[x]".data) =
      .error (.toolError "boom".data) := by rfl

/-- Claim C7, amended: the loop does not catch handler failures.  For a
    registered tool invoked on a well-formed action: if the handler raises,
    the exception propagates out of the run unchanged; if the handler
    instead reports failure by returning an error string (as the
    repository's own tools do internally), that string is appended as the
    Observation and the run continues. -/
theorem c7_amended (tools : Registry) (replies : Nat → List Char) (fuel i : Nat)
    (h : List (List Char)) (T name arg o : List Char) (e : PyExc)
    (entry : ToolEntry) (hT : noA T = true) (h1 : name ≠ [])
    (h2 : name.all isWordChar = true) (h3 : arg ≠ [])
    (hF : beginsWith ("Finish".data) (name ++ ('[' :: (arg ++ [']']))) = false)
    (hreg : getTool tools name = some entry)
    (hrep : replies i = "Thought: ".data ++ T ++ "\nAction: ".data ++
      (name ++ ('[' :: (arg ++ [']'])))) :
    (entry.func arg = .error e →
      runFrom tools replies (fuel + 1) i h = .error e) ∧
    (entry.func arg = .ok o →
      runFrom tools replies (fuel + 1) i h =
        runFrom tools replies fuel (i + 1)
          (pushPair h (name ++ ('[' :: (arg ++ [']']))) o)) := by
  have hpa := parse_action_shape name arg h1 h2
  have hp := parse_output_action_shape T (name ++ ('[' :: (arg ++ [']']))) hT
  rw [pyStrip_wordBody name arg h1 h2] at hp
  have hargE : arg.isEmpty = false := by
    cases arg with
    | nil => exact absurd rfl h3
    | cons _ _ => rfl
  constructor
  · intro herr
    have hs : stepBody tools (replies i) = .error e := by
      rw [hrep, stepBody_eval (shape_ne_nil _ _) hp]
      simp only [hF, Bool.false_eq_true, if_false, hpa, hargE, hreg, herr]
    exact runFrom_err fuel hs
  · intro hok
    have hs : stepBody tools (replies i) =
        .ok (.continuePush (name ++ ('[' :: (arg ++ [']']))) o (some (name, arg))) := by
      rw [hrep, stepBody_eval (shape_ne_nil _ _) hp]
      simp only [hF, Bool.false_eq_true, if_false, hpa, hargE, hreg, hok]
    exact runFrom_push fuel hs

/-- Claim C7, witness for the amended statement: a raising handler and a
    string-returning handler. -/
theorem c7_amended_witness :
    (((⟨"raises".data, fun _ => .error (.toolError "boom".data)⟩ : ToolEntry).func
        "x".data = .error (.toolError "boom".data)) →
      runFrom [("Boom".data,
          ⟨"raises".data, fun _ => .error (.toolError "boom".data)⟩)]
        (fun _ => "Thought: t\nAction: Boom[x]".data) (2 + 1) 0 [] =
        .error (.toolError "boom".data)) ∧
    (((⟨"raises".data, fun _ => .error (.toolError "boom".data)⟩ : ToolEntry).func
        "x".data = .ok "ok".data) →
      runFrom [("Boom".data,
          ⟨"raises".data, fun _ => .error (.toolError "boom".data)⟩)]
        (fun _ => "Thought: t\nAction: Boom[x]".data) (2 + 1) 0 [] =
        runFrom [("Boom".data,
          ⟨"raises".data, fun _ => .error (.toolError "boom".data)⟩)]
        (fun _ => "Thought: t\nAction: Boom[x]".data) 2 (0 + 1)
          (pushPair [] ("Boom".data ++ ('[' :: ("x".data ++ [']']))) "ok".data)) :=
  c7_amended [("Boom".data, ⟨"raises".data, fun _ => .error (.toolError "boom".data)⟩)]
    (fun _ => "Thought: t\nAction: Boom[x]".data) 2 0 [] "t".data "Boom".data
    "x".data "ok".data (.toolError "boom".data)
    ⟨"raises".data, fun _ => .error (.toolError "boom".data)⟩
    (by decide) (by decide) (by decide) (by decide) (by decide) (by rfl) (by decide)

/-- Claim C8, counterexample: for a reply naming the unregistered tool `X`,
    the appended Observation is the source's Chinese message
    `错误: 未找到名为'X'的工具`, which is not the string
    `Error: tool 'X' is not defined` stated by the claim. -/
theorem c8_counterexample :
    run [] 1 (fun _ => "Thought: t\nAction: X[q]".data) =
      .ok (.abortedMaxSteps,
        ["Action:X[q]".data, "Observation:".data ++ toolMissingMsg "X".data], 1) ∧
    toolMissingMsg "X".data ≠ "Error: tool 'X' is not defined".data :=
  ⟨by rfl, by decide⟩

/-- Claim C8, amended: for a reply whose Action names a tool `X` absent from
    the registry, the loop appends exactly one Action/Observation pair whose
    Observation is `错误: 未找到名为'X'的工具` (the source's message; the
    spec's `Error: tool 'X' is not defined` is its translation), the step
    counter still advances by one, and the run continues with the next
    iteration. -/
theorem c8_amended (tools : Registry) (replies : Nat → List Char) (fuel i : Nat)
    (h : List (List Char)) (T name arg : List Char) (hT : noA T = true)
    (h1 : name ≠ []) (h2 : name.all isWordChar = true) (h3 : arg ≠ [])
    (hF : beginsWith ("Finish".data) (name ++ ('[' :: (arg ++ [']']))) = false)
    (hmiss : getTool tools name = none)
    (hrep : replies i = "Thought: ".data ++ T ++ "\nAction: ".data ++
      (name ++ ('[' :: (arg ++ [']'])))) :
    stepBody tools (replies i) =
      .ok (.continuePush (name ++ ('[' :: (arg ++ [']'])))
        (toolMissingMsg name) none) ∧
    runFrom tools replies (fuel + 1) i h =
      runFrom tools replies fuel (i + 1)
        (h ++ ["Action:".data ++ (name ++ ('[' :: (arg ++ [']']))),
          "Observation:".data ++ toolMissingMsg name]) := by
  have hpa := parse_action_shape name arg h1 h2
  have hp := parse_output_action_shape T (name ++ ('[' :: (arg ++ [']']))) hT
  rw [pyStrip_wordBody name arg h1 h2] at hp
  have hargE : arg.isEmpty = false := by
    cases arg with
    | nil => exact absurd rfl h3
    | cons _ _ => rfl
  have hs : stepBody tools (replies i) =
      .ok (.continuePush (name ++ ('[' :: (arg ++ [']'])))
        (toolMissingMsg name) none) := by
    rw [hrep, stepBody_eval (shape_ne_nil _ _) hp]
    simp only [hF, Bool.false_eq_true, if_false, hpa, hargE, hmiss]
  exact ⟨hs, runFrom_push fuel hs⟩

/-- Claim C8, witness for the amended statement. -/
theorem c8_amended_witness :
    stepBody [] ((fun _ => "Thought: t\nAction: X[q]".data) 0) =
      .ok (.continuePush ("X".data ++ ('[' :: ("q".data ++ [']'])))
        (toolMissingMsg "X".data) none) ∧
    runFrom [] (fun _ => "Thought: t\nAction: X[q]".data) (1 + 1) 0 [] =
      runFrom [] (fun _ => "Thought: t\nAction: X[q]".data) 1 (0 + 1)
        ([] ++ ["Action:".data ++ ("X".data ++ ('[' :: ("q".data ++ [']']))),
          "Observation:".data ++ toolMissingMsg "X".data]) :=
  c8_amended [] (fun _ => "Thought: t\nAction: X[q]".data) 1 0 [] "t".data
    "X".data "q".data (by decide) (by decide) (by decide) (by decide)
    (by decide) (by rfl) (by decide)

/-- Claim C9: for every non-empty reply whose parsed Action text starts with
    the literal prefix `Finish` but on which the `Finish\[(.*)\]` match
    fails (for example `Finish the task`), `run` raises an uncaught
    `AttributeError` (`re.match` returning `None` followed by `.group(1)` at
    ReActAgent.py:75) instead of classifying the directive as Unparseable
    and continuing. -/
theorem c9_finish_crash (tools : Registry) (replies : Nat → List Char)
    (fuel i : Nat) (h : List (List Char)) (a : List Char)
    (hne : replies i ≠ []) (hp : parse_output_action (replies i) = some a)
    (hF : beginsWith ("Finish".data) a = true) (hfa : finishAnswer a = none) :
    runFrom tools replies (fuel + 1) i h = .error .attributeError := by
  have hs : stepBody tools (replies i) = .error .attributeError := by
    rw [stepBody_eval hne hp, hF, if_pos rfl, hfa]
  exact runFrom_err fuel hs

/-- Claim C9, witness: the reply `Thought: t\nAction: Finish the task`. -/
theorem c9_witness :
    runFrom [] (fun _ => "Thought: t\nAction: Finish the task".data) (4 + 1) 0 [] =
      .error .attributeError :=
  c9_finish_crash [] (fun _ => "Thought: t\nAction: Finish the task".data) 4 0 []
    "Finish the task".data
    (show "Thought: t\nAction: Finish the task".data ≠ [] by decide)
    (by rfl) (by rfl) (by rfl)

/-- Claim C10: every run starts with an empty history, and entries are only
    ever appended in Action+Observation pairs: at the top of every loop
    iteration the history alternates `Action:`-prefixed and
    `Observation:`-prefixed entries and has even length. -/
theorem c10_history_paired (tools : Registry) (replies : Nat → List Char)
    (N : Nat) :
    ∀ p ∈ runTrace tools replies N 0 [], pairedOk p.2 = true ∧
      p.2.length % 2 = 0 := by
  intro p hp
  have h1 := runTrace_paired tools replies N 0 [] rfl p hp
  exact ⟨h1, pairedOk_even _ h1⟩

/-- Claim C10, witness: the history at the top of the second iteration of a
    concrete run is one Action/Observation pair. -/
theorem c10_witness :
    pairedOk ((2, ["Action:X[q]".data,
        "Observation:".data ++ toolMissingMsg "X".data]) :
      Nat × List (List Char)).2 = true ∧
    ((2, ["Action:X[q]".data, "Observation:".data ++ toolMissingMsg "X".data]) :
      Nat × List (List Char)).2.length % 2 = 0 :=
  c10_history_paired [] (fun _ => "Thought: t\nAction: X[q]".data) 2
    (2, ["Action:X[q]".data, "Observation:".data ++ toolMissingMsg "X".data])
    (by decide)
